import Mathlib

/-!
Shallow embedding of the process-management subsystem found in
src/core/hle/kernel/process.cpp (namespace Kernel) of the yuzu repository,
together with theorems settling the frozen claims about it.

Machine integers: descriptor words are u32 values; arithmetic that the C++
performs on u32 (the shifts producing mapping addresses) is modelled with an
explicit % 2^32.  VAddr (u64) arithmetic appears only in ranges where the
source cannot overflow, so it is modelled on plain Nat.
-/

namespace Kernel

/-- Process lifecycle status.  The enum lives in process.h which is not under
src; the spec fixes the four states and their order
Created < Running < Exiting < Exited. -/
inductive ProcessStatus where
  | Created
  | Running
  | Exiting
  | Exited
deriving DecidableEq

/-- Result of a kernel operation.  errors.h is not under src; the spec's error
taxonomy names InvalidState (ERR_INVALID_STATE) and success (RESULT_SUCCESS);
other codes are carried opaquely. -/
inductive ResultCode where
  | success
  | invalidState
  | other (raw : Nat)
deriving DecidableEq

/-- Memory permissions of vm_manager.h (not under src); the source uses
ReadExecute, Read and ReadWrite, and the spec's words for the code segment
(execute-only) correspond to Execute. -/
inductive VMAPermission where
  | NoAccess
  | Read
  | Write
  | ReadWrite
  | Execute
  | ReadExecute
  | WriteExecute
  | ReadWriteExecute
deriving DecidableEq

/-- Memory state tags used by the source (vm_manager.h, not under src). -/
inductive MemoryState where
  | Mapped
  | CodeStatic
  | CodeMutable
  | ThreadLocal
deriving DecidableEq

/-! ## Process lifecycle and synchronization (Process::ChangeStatus,
Process::ClearSignalState, lines 52-65 and 298-306) -/

/-- The lifecycle/synchronization fields of a Process: status, the signal
flag, and the identities of the threads currently blocked waiting on this
process (the WaitObject waiter list, modelled as a list of thread ids).
Initial field values come from Process::Create (status = Created) and, for
is_signaled, from the spec: it is true once status has changed since
creation, hence false at creation. -/
structure LifecycleState where
  status : ProcessStatus
  is_signaled : Bool
  waiting_threads : List Nat
deriving DecidableEq

/-- Modelled from the spec: WaitObject::WakeupAllWaitingThreads lives in the
kernel wait-object code, which is not under src.  Per spec section 5 the wake
is level-triggered: every thread currently blocked on the object is resumed.
Returns the new state and the ids of the woken threads. -/
def WakeupAllWaitingThreads (st : LifecycleState) : LifecycleState × List Nat :=
  ({ st with waiting_threads := [] }, st.waiting_threads)

/-- Process::ChangeStatus (process.cpp lines 298-306).  Returns the new state
and the list of thread ids woken during the call (which threads the single
WakeupAllWaitingThreads invocation resumed; empty when no wakeup was issued). -/
def ChangeStatus (st : LifecycleState) (new_status : ProcessStatus) :
    LifecycleState × List Nat :=
  if st.status = new_status then
    (st, [])
  else
    WakeupAllWaitingThreads { st with status := new_status, is_signaled := true }

/-- Process::ClearSignalState (process.cpp lines 52-65).  Returns the result
code and the state after the call. -/
def ClearSignalState (st : LifecycleState) : ResultCode × LifecycleState :=
  if st.status = ProcessStatus.Exited then
    (ResultCode.invalidState, st)
  else if st.is_signaled = false then
    (ResultCode.invalidState, st)
  else
    (ResultCode.success, { st with is_signaled := false })

/-- Lifecycle fields of a process as produced by Process::Create
(process.cpp line 34: status = Created; is_signaled initially false). -/
def createdLifecycle : LifecycleState :=
  { status := ProcessStatus.Created, is_signaled := false, waiting_threads := [] }

/-- Position of a status in the forward order Created < Running < Exiting <
Exited stated by the spec. -/
def statusRank : ProcessStatus → Nat
  | ProcessStatus.Created => 0
  | ProcessStatus.Running => 1
  | ProcessStatus.Exiting => 2
  | ProcessStatus.Exited => 3

/-! ## Module loading (Process::LoadModule, lines 249-269) -/

/-- One segment of a CodeSet (CodeSet::Segment of process.h, whose fields
offset, addr and size are all used by the source). -/
structure CSSegment where
  addr : Nat
  offset : Nat
  size : Nat
deriving DecidableEq

/-- A loaded binary: code, rodata and data segments (CodeSet of process.h;
the accessors CodeSegment, RODataSegment and DataSegment are used by the
source). The shared backing memory itself is owned by the address-space
manager and does not influence the mapped layout, so it is not modelled. -/
structure CodeSet where
  code : CSSegment
  rodata : CSSegment
  data : CSSegment
deriving DecidableEq

/-- Calls Process::LoadModule makes into its collaborators, in order. -/
inductive LoadModuleEvent where
  | mapMemoryBlock (target : Nat) (offset : Nat) (size : Nat) (state : MemoryState)
  | reprotect (target : Nat) (perm : VMAPermission)
  | clearInstructionCache (core : Nat)
deriving DecidableEq

/-- The MapSegment lambda inside Process::LoadModule (lines 250-257): map the
segment at segment.addr + base_addr backed at segment.offset for segment.size
bytes, then reprotect the resulting region. -/
def MapSegment (segment : CSSegment) (base_addr : Nat) (permissions : VMAPermission)
    (memory_state : MemoryState) : List LoadModuleEvent :=
  [LoadModuleEvent.mapMemoryBlock (segment.addr + base_addr) segment.offset
      segment.size memory_state,
   LoadModuleEvent.reprotect (segment.addr + base_addr) permissions]

/-- Process::LoadModule (lines 249-269) as the sequence of collaborator calls
it performs. -/
def LoadModule (module_ : CodeSet) (base_addr : Nat) : List LoadModuleEvent :=
  MapSegment module_.code base_addr VMAPermission.ReadExecute MemoryState.CodeStatic ++
  MapSegment module_.rodata base_addr VMAPermission.Read MemoryState.CodeMutable ++
  MapSegment module_.data base_addr VMAPermission.ReadWrite MemoryState.CodeMutable ++
  [LoadModuleEvent.clearInstructionCache 0, LoadModuleEvent.clearInstructionCache 1,
   LoadModuleEvent.clearInstructionCache 2, LoadModuleEvent.clearInstructionCache 3]

/-- The reprotection permissions requested by a call sequence, in order. -/
def reprotectPerms (events : List LoadModuleEvent) : List VMAPermission :=
  events.filterMap fun e =>
    match e with
    | LoadModuleEvent.reprotect _ p => some p
    | _ => none

/-- The cores whose instruction cache a call sequence invalidates, in order. -/
def icacheCores (events : List LoadModuleEvent) : List Nat :=
  events.filterMap fun e =>
    match e with
    | LoadModuleEvent.clearInstructionCache c => some c
    | _ => none

/-! ## Capability parsing (Process::ParseKernelCaps, lines 74-144, and
Process::Create line 37) -/

/-- Memory::PAGE_SIZE.  Modelled from the spec: the constant lives in
core/memory.h which is not under src; the spec describes one page as the unit
of the TLS region and of single-page capability mappings, with 8 TLS entries
of TLS_ENTRY_SIZE bytes per page, matching 0x1000 = 8 * 0x200. -/
def PAGE_SIZE : Nat := 0x1000

/-- Memory::TLS_ENTRY_SIZE.  Modelled from the spec: the constant lives in
core/memory.h which is not under src; one TLS block of the 8 per page. -/
def TLS_ENTRY_SIZE : Nat := 0x200

/-- One entry of Process::address_mappings (struct AddressMapping of
process.h, whose fields address, size, read_only and unk_flag are all set by
the source). -/
structure AddressMapping where
  address : Nat
  size : Nat
  read_only : Bool
  unk_flag : Bool
deriving DecidableEq

/-- The process state read and written by Process::ParseKernelCaps, plus
counters for the warnings (LOG_WARNING) and errors (LOG_ERROR) it logs.
svc_access_mask is a fixed-size bit set; its size (0x80, the syscall number
space) comes from process.h which is not under src and is modelled from the
spec. -/
structure CapState where
  svc_access_mask : List Bool
  handle_table_size : Nat
  flags_raw : Nat
  address_mappings : List AddressMapping
  kernel_version : Nat
  warnings : Nat
  errors : Nat
deriving DecidableEq

/-- The while loop of the allowed-syscalls-mask branch (lines 90-94):
while (bits && index < svc_access_mask.size()) set mask[index] to the low bit
of bits, advance index, shift bits right. -/
def setSvcBits (mask : List Bool) (index : Nat) (bits : Nat) : List Bool :=
  if bits ≠ 0 ∧ index < mask.length then
    setSvcBits (mask.set index (bits &&& 1 == 1)) (index + 1) (bits / 2)
  else
    mask
termination_by bits
decreasing_by exact Nat.div_lt_self (Nat.pos_of_ne_zero (by tauto)) (by omega)

/-- Number of iterations the loop of setSvcBits performs for a mask of length
len: it stops at the first point where the remaining bits are zero or the
index leaves the mask. -/
def svcSteps (len : Nat) (index : Nat) (bits : Nat) : Nat :=
  if bits ≠ 0 ∧ index < len then
    svcSteps len (index + 1) (bits / 2) + 1
  else
    0
termination_by bits
decreasing_by exact Nat.div_lt_self (Nat.pos_of_ne_zero (by tauto)) (by omega)

/-- Process::ParseKernelCaps (lines 74-144).  The index-based loop with the
one-word lookahead of the mapped-memory-range branch is rendered as list
recursion; skipping the second descriptor word (++i) is recursion on the
tail past it, and the not-advancing warning path is recursion on the
unchanged remainder.  u32 shifts wrap modulo 2^32. -/
def parseKernelCaps : CapState → List Nat → CapState
  | st, [] => st
  | st, descriptor :: rest =>
    if descriptor = 0xFFFFFFFF then
      -- Unused descriptor entry
      parseKernelCaps st rest
    else if (descriptor >>> 20) &&& 0xF00 = 0xE00 then
      -- Allowed interrupts list (ignored, logged)
      parseKernelCaps { st with warnings := st.warnings + 1 } rest
    else if (descriptor >>> 20) &&& 0xF80 = 0xF00 then
      -- Allowed syscalls mask: index = ((descriptor >> 24) & 7) * 24,
      -- bits = descriptor & 0xFFFFFF
      parseKernelCaps { st with svc_access_mask := setSvcBits st.svc_access_mask (((descriptor >>> 24) &&& 7) * 24) (descriptor &&& 0xFFFFFF) } rest
    else if (descriptor >>> 20) &&& 0xFF0 = 0xFE0 then
      -- Handle table size
      parseKernelCaps { st with handle_table_size := descriptor &&& 0x3FF } rest
    else if (descriptor >>> 20) &&& 0xFF8 = 0xFF0 then
      -- Misc. flags
      parseKernelCaps { st with flags_raw := descriptor &&& 0xFFFF } rest
    else if (descriptor >>> 20) &&& 0xFFE = 0xFF8 then
      -- Mapped memory range: address = descriptor << 12 and
      -- end_address = end_desc << 12 in u32 arithmetic
      match rest with
      | [] =>
        parseKernelCaps { st with warnings := st.warnings + 1 } []
      | end_desc :: rest2 =>
        if (end_desc >>> 20) &&& 0xFFE ≠ 0xFF8 then
          parseKernelCaps { st with warnings := st.warnings + 1 } (end_desc :: rest2)
        else
          parseKernelCaps
            { st with address_mappings := st.address_mappings ++
                [{ address := (descriptor <<< 12) % 2 ^ 32,
                   size :=
                     if (descriptor <<< 12) % 2 ^ 32 < (end_desc <<< 12) % 2 ^ 32 then
                       (end_desc <<< 12) % 2 ^ 32 - (descriptor <<< 12) % 2 ^ 32
                     else 0,
                   read_only := descriptor.testBit 20,
                   unk_flag := end_desc.testBit 20 }] } rest2
    else if (descriptor >>> 20) &&& 0xFFF = 0xFFE then
      -- Mapped memory page
      parseKernelCaps
        { st with address_mappings := st.address_mappings ++
            [{ address := (descriptor <<< 12) % 2 ^ 32, size := PAGE_SIZE,
               read_only := false, unk_flag := false }] } rest
    else if (descriptor >>> 20) &&& 0xFE0 = 0xFC0 then
      -- Kernel version
      parseKernelCaps { st with kernel_version := descriptor &&& 0xFFFF } rest
    else
      -- Unhandled kernel caps descriptor
      parseKernelCaps { st with errors := st.errors + 1 } rest

/-- svc_access_mask as Process::Create leaves it (line 37:
svc_access_mask.set(), every bit set). -/
def initialSvcMask : List Bool := List.replicate 0x80 true

/-- A freshly created process's capability state: all syscalls permitted;
the remaining fields at their (process.h, modelled-from-spec) zero defaults. -/
def createdCapState : CapState :=
  { svc_access_mask := initialSvcMask, handle_table_size := 0, flags_raw := 0,
    address_mappings := [], kernel_version := 0, warnings := 0, errors := 0 }

/-! ## TLS slot allocation (FindFreeThreadLocalSlot lines 199-215,
Process::MarkNextAvailableTLSSlotAsUsed lines 217-239,
Process::FreeTLSSlot lines 241-247) -/

/-- The inner loop of FindFreeThreadLocalSlot (lines 206-210): scan the 8
slots of a page from 0 upward and return the first one whose bit is clear. -/
def findFirstFreeSlot : List Bool → Option Nat
  | [] => none
  | b :: rest =>
    if b then (findFirstFreeSlot rest).map (fun s => s + 1) else some 0

/-- FindFreeThreadLocalSlot (lines 199-215): scan the allocated pages from 0
upward for one that is not full, and within it the first free slot; the
result is (page, slot, alloc_needed).  The C++ index loop is rendered as list
recursion, shifting the page index of the recursive result by one. -/
def FindFreeThreadLocalSlot : List (List Bool) → Nat × Nat × Bool
  | [] => (0, 0, true)
  | page :: rest =>
    match (if page.all (fun b => b) then none else findFirstFreeSlot page) with
    | some slot => (0, slot, false)
    | none =>
      match FindFreeThreadLocalSlot rest with
      | (p, s, false) => (p + 1, s, false)
      | (_, _, true) => (0, 0, true)

/-- Process::MarkNextAvailableTLSSlotAsUsed (lines 217-239) restricted to the
state it owns: the tls_slots bitmaps and the returned virtual address.
tls_begin is the TLS/IO region base queried from the address-space manager;
the backing-memory extension and the MapMemoryBlock call on a fresh page act
only on external collaborators and are not part of the owned state. -/
def MarkNextAvailableTLSSlotAsUsed (tls_begin : Nat) (tls_slots : List (List Bool)) :
    List (List Bool) × Nat :=
  let r := FindFreeThreadLocalSlot tls_slots
  let needs_allocation := r.2.2
  let slots1 :=
    if needs_allocation then tls_slots ++ [List.replicate 8 false] else tls_slots
  let available_page := if needs_allocation then slots1.length - 1 else r.1
  let available_slot := if needs_allocation then 0 else r.2.1
  (slots1.set available_page ((slots1.getD available_page []).set available_slot true),
   tls_begin + available_page * PAGE_SIZE + available_slot * TLS_ENTRY_SIZE)

/-- Process::FreeTLSSlot (lines 241-247): recover (page, slot) from the
address by the inverse arithmetic and clear that bit. -/
def FreeTLSSlot (tls_begin : Nat) (tls_slots : List (List Bool))
    (tls_address : Nat) : List (List Bool) :=
  let tls_base := tls_address - tls_begin
  let tls_page := tls_base / PAGE_SIZE
  let tls_slot := (tls_base % PAGE_SIZE) / TLS_ENTRY_SIZE
  tls_slots.set tls_page ((tls_slots.getD tls_page []).set tls_slot false)

/-- Slot s of page p is present and free in the given bitmaps. -/
def slotFree (tls_slots : List (List Bool)) (p s : Nat) : Prop :=
  (tls_slots[p]?.bind fun pg => pg[s]?) = some false

instance (tls_slots : List (List Bool)) (p s : Nat) :
    Decidable (slotFree tls_slots p s) := by
  unfold slotFree
  infer_instance

/-- (p, s) is the lexicographically lowest free (page, slot) of the bitmaps.
The quantifiers are bounded (pages by the page count, slots by the 8 slots of
a bitset<8>) so the predicate is decidable on concrete states. -/
def lowestFree (tls_slots : List (List Bool)) (p s : Nat) : Prop :=
  slotFree tls_slots p s ∧
  ∀ p' < tls_slots.length, ∀ s' < 8,
    slotFree tls_slots p' s' → p < p' ∨ (p = p' ∧ s ≤ s')

instance (tls_slots : List (List Bool)) (p s : Nat) :
    Decidable (lowestFree tls_slots p s) := by
  unfold lowestFree
  infer_instance

/-! ## Termination (Process::PrepareForTermination, lines 162-189) -/

/-- Thread status.  Modelled from the spec: the enum lives in thread.h which
is not under src; the source names the two blocking-wait states WaitSynchAny
and WaitSynchAll, and the spec contrasts them with actively running/ready
(and other non-waiting) states. -/
inductive ThreadStatus where
  | Running
  | Ready
  | WaitSynchAny
  | WaitSynchAll
  | WaitSleep
  | Dormant
  | Dead
deriving DecidableEq

/-- A thread as seen by Process::PrepareForTermination: its identity, its
owner process (GetOwnerProcess, compared by identity), its status and whether
Thread::Stop has been issued on it. -/
structure SysThread where
  tid : Nat
  owner : Nat
  status : ThreadStatus
  stopped : Bool
deriving DecidableEq

/-- The four schedulers' thread lists (system.Scheduler(0..3).GetThreadList()). -/
structure TermSystem where
  core0 : List SysThread
  core1 : List SysThread
  core2 : List SysThread
  core3 : List SysThread
deriving DecidableEq

/-- The stop_threads lambda of Process::PrepareForTermination (lines 165-180)
on one core's list: skip threads of other processes and the calling thread;
for each remaining thread the ASSERT_MSG demands a blocking-wait status —
none models the fatal assertion firing, otherwise the thread is stopped. -/
def stopThreadList (pid current_tid : Nat) : List SysThread → Option (List SysThread)
  | [] => some []
  | t :: rest =>
    if t.owner ≠ pid then
      (stopThreadList pid current_tid rest).map (fun r => t :: r)
    else if t.tid = current_tid then
      (stopThreadList pid current_tid rest).map (fun r => t :: r)
    else if t.status = ThreadStatus.WaitSynchAny ∨ t.status = ThreadStatus.WaitSynchAll then
      (stopThreadList pid current_tid rest).map (fun r => { t with stopped := true } :: r)
    else
      none

/-- Process::PrepareForTermination (lines 162-189): status to Exiting, stop
this process's waiting threads on all four cores (none: the fatal assertion
fired on some core), then status to Exited. -/
def PrepareForTermination (pid current_tid : Nat) (st : LifecycleState)
    (sys : TermSystem) : Option (LifecycleState × TermSystem) :=
  let st1 := (ChangeStatus st ProcessStatus.Exiting).1
  match stopThreadList pid current_tid sys.core0 with
  | none => none
  | some c0 =>
    match stopThreadList pid current_tid sys.core1 with
    | none => none
    | some c1 =>
      match stopThreadList pid current_tid sys.core2 with
      | none => none
      | some c2 =>
        match stopThreadList pid current_tid sys.core3 with
        | none => none
        | some c3 =>
          some ((ChangeStatus st1 ProcessStatus.Exited).1,
                { core0 := c0, core1 := c1, core2 := c2, core3 := c3 })

/-- What the qualifying threads of one list look like after a successful
termination pass: this process's threads other than the caller are stopped,
every other thread is untouched. -/
def stopOwnedThreads (pid current_tid : Nat) (l : List SysThread) : List SysThread :=
  l.map fun t =>
    if t.owner = pid ∧ t.tid ≠ current_tid then { t with stopped := true } else t

/-- Membership in any of the four cores' thread lists. -/
def inSystem (sys : TermSystem) (t : SysThread) : Prop :=
  t ∈ sys.core0 ∨ t ∈ sys.core1 ∨ t ∈ sys.core2 ∨ t ∈ sys.core3

/-! ## Status-affecting public operations (for the lifecycle-monotonicity
claim).  Process::Run (lines 146-160) maps the main stack and spawns the main
thread through external collaborators and calls ChangeStatus(Running);
Process::PrepareForTermination and Process::ClearSignalState are modelled
above.  The remaining public operations (LoadFromMetadata, ParseKernelCaps,
LoadModule, the heap/mirror/unmap facade, the TLS operations) never write
status, is_signaled or the waiter list, as reading process.cpp shows. -/

inductive ProcessOp where
  | run
  | prepareForTermination
  | clearSignalState
deriving DecidableEq

/-- Effect of one public operation on the lifecycle state (and the scheduler
thread lists it consumes); none models the fatal assertion inside
PrepareForTermination. -/
def applyOp (pid current_tid : Nat) (op : ProcessOp) (st : LifecycleState)
    (sys : TermSystem) : Option (LifecycleState × TermSystem) :=
  match op with
  | ProcessOp.run => some ((ChangeStatus st ProcessStatus.Running).1, sys)
  | ProcessOp.prepareForTermination => PrepareForTermination pid current_tid st sys
  | ProcessOp.clearSignalState => some ((ClearSignalState st).2, sys)

/-- Effect of a sequence of public operations, left to right. -/
def applyOps (pid current_tid : Nat) (st : LifecycleState) (sys : TermSystem) :
    List ProcessOp → Option (LifecycleState × TermSystem)
  | [] => some (st, sys)
  | op :: rest =>
    match applyOp pid current_tid op st sys with
    | none => none
    | some (st', sys') => applyOps pid current_tid st' sys' rest

/-- A system with no threads on any core. -/
def emptySys : TermSystem := { core0 := [], core1 := [], core2 := [], core3 := [] }

/-! ## Address-space facade (Process::UnmapMemory, lines 283-285) -/

/-- The slice of the external VMManager that Process::UnmapMemory consumes:
UnmapRange, taking a target address and a size.  An arbitrary function field
stands for the collaborator's (state-dependent) behaviour. -/
structure VMManager where
  unmapRange : Nat → Nat → ResultCode

/-- Process::UnmapMemory (lines 283-285): forwards dst_addr and size to
VMManager::UnmapRange; the src_addr parameter is unnamed in the source and
never read. -/
def UnmapMemory (vm : VMManager) (dst_addr src_addr size : Nat) : ResultCode :=
  vm.unmapRange dst_addr size

/-! ## Helper lemmas -/

/-- Both ClearSignalState branches leave status unchanged. -/
theorem clearSignalState_status (st : LifecycleState) :
    (ClearSignalState st).2.status = st.status := by
  obtain ⟨s, sig, w⟩ := st
  cases s <;> cases sig <;> simp [ClearSignalState]

/-- ChangeStatus to Exiting and then to Exited always lands in the Exited,
signaled, no-waiters state, whatever the starting state. -/
theorem changeStatus_exiting_exited (st : LifecycleState) :
    (ChangeStatus (ChangeStatus st ProcessStatus.Exiting).1 ProcessStatus.Exited).1 =
      { status := ProcessStatus.Exited, is_signaled := true, waiting_threads := [] } := by
  by_cases h : st.status = ProcessStatus.Exiting <;>
    simp [ChangeStatus, WakeupAllWaitingThreads, h]

/-- A successful PrepareForTermination always leaves the lifecycle in the
Exited, signaled, no-waiters state. -/
theorem prepareForTermination_lifecycle {pid current_tid : Nat} {st : LifecycleState}
    {sys : TermSystem} {st' : LifecycleState} {sys' : TermSystem}
    (h : PrepareForTermination pid current_tid st sys = some (st', sys')) :
    st' = { status := ProcessStatus.Exited, is_signaled := true,
            waiting_threads := [] } := by
  unfold PrepareForTermination at h
  split at h
  · exact Option.noConfusion h
  split at h
  · exact Option.noConfusion h
  split at h
  · exact Option.noConfusion h
  split at h
  · exact Option.noConfusion h
  simp only [Option.some.injEq, Prod.mk.injEq] at h
  rw [← h.1]
  exact changeStatus_exiting_exited st

/-- The syscall-mask loop never changes the mask's length. -/
theorem setSvcBits_length (mask : List Bool) (index bits : Nat) :
    (setSvcBits mask index bits).length = mask.length := by
  induction bits using Nat.strong_induction_on generalizing mask index with
  | _ bits ih =>
    unfold setSvcBits
    split
    · next hc =>
        rw [ih (bits / 2) (Nat.div_lt_self (Nat.pos_of_ne_zero hc.1) (by omega))]
        exact List.length_set ..
    · rfl

/-- Pointwise description of the syscall-mask loop: positions from index up
to (but not including) index + svcSteps receive the matching bit of bits;
every other position keeps its previous value. -/
theorem setSvcBits_getElem? (mask : List Bool) (index bits j : Nat) :
    (setSvcBits mask index bits)[j]? =
      if index ≤ j ∧ j < index + svcSteps mask.length index bits then
        some (bits.testBit (j - index))
      else mask[j]? := by
  induction bits using Nat.strong_induction_on generalizing mask index with
  | _ bits ih =>
    unfold setSvcBits svcSteps
    by_cases hc : bits ≠ 0 ∧ index < mask.length
    · rw [if_pos hc, if_pos hc,
        ih (bits / 2) (Nat.div_lt_self (Nat.pos_of_ne_zero hc.1) (by omega)),
        List.length_set]
      rcases Nat.lt_trichotomy j index with hj | hj | hj
      · rw [if_neg (by omega), if_neg (by omega),
          List.getElem?_set_ne (by omega)]
      · subst hj
        rw [if_neg (by omega), if_pos ⟨Nat.le_refl j, by omega⟩,
          List.getElem?_set_self hc.2, Nat.sub_self]
        refine congrArg some ?_
        rw [Bool.eq_iff_iff]
        simp [Nat.and_one_is_mod]
      · have hsub : j - index = (j - (index + 1)) + 1 := by omega
        by_cases hin : j < index + 1 + svcSteps mask.length (index + 1) (bits / 2)
        · rw [if_pos ⟨by omega, hin⟩, if_pos ⟨by omega, by omega⟩, hsub,
            Nat.testBit_succ]
        · rw [if_neg (by omega), if_neg (by omega),
            List.getElem?_set_ne (by omega)]
    · rw [if_neg hc, if_neg hc, if_neg (by omega)]

/-- The syscall-mask loop stops because the remaining bits ran out or the
index left the mask. -/
theorem svcSteps_last (len bits index : Nat) :
    bits >>> svcSteps len index bits = 0 ∨ len ≤ index + svcSteps len index bits := by
  induction bits using Nat.strong_induction_on generalizing index with
  | _ bits ih =>
    unfold svcSteps
    by_cases hc : bits ≠ 0 ∧ index < len
    · rw [if_pos hc]
      rcases ih (bits / 2) (Nat.div_lt_self (Nat.pos_of_ne_zero hc.1) (by omega))
          (index + 1) with h | h
      · left
        rw [Nat.shiftRight_succ_inside]
        exact h
      · right
        omega
    · rw [if_neg hc]
      rcases Decidable.not_and_iff_or_not.mp hc with h | h
      · left
        have : bits = 0 := by omega
        simp [this]
      · right
        omega

/-- Before the stopping point the remaining bits are nonzero and the index is
still inside the mask: svcSteps is the first stopping point, not merely one. -/
theorem svcSteps_min (len bits index k : Nat)
    (hk : k < svcSteps len index bits) :
    bits >>> k ≠ 0 ∧ index + k < len := by
  induction bits using Nat.strong_induction_on generalizing index k with
  | _ bits ih =>
    unfold svcSteps at hk
    by_cases hc : bits ≠ 0 ∧ index < len
    · rw [if_pos hc] at hk
      cases k with
      | zero => exact ⟨by simpa using hc.1, by omega⟩
      | succ k' =>
        have h := ih (bits / 2) (Nat.div_lt_self (Nat.pos_of_ne_zero hc.1) (by omega))
          (index + 1) k' (by omega)
        refine ⟨?_, by omega⟩
        rw [Nat.shiftRight_succ_inside]
        exact h.1
    · rw [if_neg hc] at hk
      omega

/-- Narrowing a matched bit pattern to a submask: from t AND m = p and
m AND sub = sub conclude t AND sub = p AND sub. -/
theorem and_mask_mono (t m p sub : Nat) (h : t &&& m = p) (hsub : m &&& sub = sub) :
    t &&& sub = p &&& sub := by
  conv_lhs => rw [← hsub]
  rw [← Nat.land_assoc, h]

/-- Appending one element and reading at the old length yields that element. -/
theorem getD_append_length {α : Type} (l : List α) (a d : α) :
    (l ++ [a]).getD l.length d = a := by
  rw [List.getD_eq_getElem?_getD, List.getElem?_append_right (Nat.le_refl _),
    Nat.sub_self]
  rfl

/-- Setting the position right past a list's end inside an appended singleton
replaces that singleton. -/
theorem set_append_length {α : Type} (l : List α) (a b : α) :
    (l ++ [a]).set l.length b = l ++ [b] := by
  induction l with
  | nil => rfl
  | cons x xs ih => simp [List.set, ih]

/-- Setting an index to the value it already holds is the identity. -/
theorem set_getElem?_self {α : Type} {l : List α} {n : Nat} {a : α}
    (h : l[n]? = some a) : l.set n a = l := by
  induction l generalizing n with
  | nil => rfl
  | cons x xs ih =>
    cases n with
    | zero =>
      simp only [List.getElem?_cons_zero, Option.some.injEq] at h
      simp [List.set, h]
    | succ n' =>
      simp only [List.getElem?_cons_succ] at h
      simp [List.set, ih h]

/-- The first free slot returned by the inner TLS page scan is free, and
every lower slot is occupied. -/
theorem findFirstFreeSlot_some {pg : List Bool} {s : Nat}
    (h : findFirstFreeSlot pg = some s) :
    pg[s]? = some false ∧ ∀ j < s, pg[j]? = some true := by
  induction pg generalizing s with
  | nil => exact Option.noConfusion h
  | cons b rest ih =>
    simp only [findFirstFreeSlot] at h
    by_cases hb : b = true
    · rw [if_pos hb] at h
      cases hr : findFirstFreeSlot rest with
      | none => rw [hr] at h; exact Option.noConfusion h
      | some s0 =>
        rw [hr] at h
        simp only [Option.map_some', Option.some.injEq] at h
        subst h
        obtain ⟨h1, h2⟩ := ih hr
        refine ⟨by simpa using h1, ?_⟩
        intro j hj
        cases j with
        | zero => simp [hb]
        | succ j' => simpa using h2 j' (by omega)
    · rw [if_neg hb] at h
      simp only [Option.some.injEq] at h
      subst h
      have hb' : b = false := by
        cases b
        · rfl
        · exact absurd rfl hb
      exact ⟨by simp [hb'], fun j hj => absurd hj (by omega)⟩

/-- A page that is not full has a first free slot. -/
theorem findFirstFreeSlot_of_not_all {page : List Bool}
    (h : page.all (fun b => b) = false) : ∃ s, findFirstFreeSlot page = some s := by
  induction page with
  | nil => simp at h
  | cons b rest ih =>
    by_cases hb : b = true
    · rw [List.all_cons, hb, Bool.true_and] at h
      obtain ⟨s, hs⟩ := ih h
      exact ⟨s + 1, by simp [findFirstFreeSlot, hb, hs]⟩
    · exact ⟨0, by simp [findFirstFreeSlot, hb]⟩

/-- A full page has no free slot. -/
theorem page_all_no_free {page : List Bool} (hall : page.all (fun b => b) = true)
    (s : Nat) : page[s]? ≠ some false := by
  intro hc
  have hmem : (false : Bool) ∈ page := by
    rcases List.getElem?_eq_some_iff.mp hc with ⟨hlt, he⟩
    exact he ▸ List.getElem_mem hlt
  have := List.all_eq_true.mp hall false hmem
  simp at this

/-- No slot is free in an empty page table. -/
theorem slotFree_nil (p s : Nat) : ¬ slotFree [] p s := by
  simp [slotFree]

/-- Freeness at page 0 of a cons is freeness in its head page. -/
theorem slotFree_cons_zero {page : List Bool} {rest : List (List Bool)} {s : Nat} :
    slotFree (page :: rest) 0 s ↔ page[s]? = some false := by
  simp [slotFree]

/-- Freeness at a successor page of a cons is freeness in the tail. -/
theorem slotFree_cons_succ {page : List Bool} {rest : List (List Bool)} {p s : Nat} :
    slotFree (page :: rest) (p + 1) s ↔ slotFree rest p s := by
  simp [slotFree]

/-- A free slot's page index is a real page and its slot index is below 8
when every page is a bitset of 8 slots. -/
theorem slotFree_bounds {tls : List (List Bool)} {p s : Nat}
    (h8 : ∀ pg ∈ tls, pg.length = 8) (h : slotFree tls p s) :
    p < tls.length ∧ s < 8 := by
  unfold slotFree at h
  cases hp : tls[p]? with
  | none => rw [hp] at h; simp at h
  | some pg =>
    rw [hp] at h
    simp only [Option.some_bind] at h
    rcases List.getElem?_eq_some_iff.mp hp with ⟨hlt, he⟩
    have hmem : pg ∈ tls := he ▸ List.getElem_mem hlt
    have hs : s < pg.length := (List.getElem?_eq_some_iff.mp h).1
    rw [h8 pg hmem] at hs
    exact ⟨hlt, hs⟩

/-- When all pages are full the outer scan reports that an allocation is
needed. -/
theorem findFree_of_all_full {tls : List (List Bool)}
    (h : ∀ pg ∈ tls, pg.all (fun b => b) = true) :
    FindFreeThreadLocalSlot tls = (0, 0, true) := by
  induction tls with
  | nil => rfl
  | cons page rest ih =>
    simp only [FindFreeThreadLocalSlot]
    rw [if_pos (h page (List.mem_cons_self ..)),
      ih fun pg hm => h pg (List.mem_cons_of_mem _ hm)]

/-- A found (page, slot) pair is indeed a free slot of the table. -/
theorem findFree_found {tls : List (List Bool)} {p s : Nat}
    (h : FindFreeThreadLocalSlot tls = (p, s, false)) : slotFree tls p s := by
  induction tls generalizing p s with
  | nil => simp [FindFreeThreadLocalSlot] at h
  | cons page rest ih =>
    simp only [FindFreeThreadLocalSlot] at h
    by_cases hall : page.all (fun b => b) = true
    · rw [if_pos hall] at h
      rcases hrec : FindFreeThreadLocalSlot rest with ⟨p1, s1, b1⟩
      rw [hrec] at h
      cases b1 with
      | false =>
        simp only [Prod.mk.injEq] at h
        obtain ⟨hp, hs, -⟩ := h
        subst hp hs
        exact slotFree_cons_succ.mpr (ih hrec)
      | true => simp at h
    · rw [if_neg hall] at h
      cases hfs : findFirstFreeSlot page with
      | none =>
        rw [hfs] at h
        rcases hrec : FindFreeThreadLocalSlot rest with ⟨p1, s1, b1⟩
        rw [hrec] at h
        cases b1 with
        | false =>
          simp only [Prod.mk.injEq] at h
          obtain ⟨hp, hs, -⟩ := h
          subst hp hs
          exact slotFree_cons_succ.mpr (ih hrec)
        | true => simp at h
      | some s0 =>
        rw [hfs] at h
        simp only [Prod.mk.injEq] at h
        obtain ⟨hp, hs, -⟩ := h
        subst hp hs
        exact slotFree_cons_zero.mpr (findFirstFreeSlot_some hfs).1

/-- First-fit correctness of the outer scan: if (p, s) is free and
lexicographically least among the free slots, the scan returns exactly it. -/
theorem findFree_eq_of_lowest (tls : List (List Bool)) (p s : Nat)
    (hfree : slotFree tls p s)
    (hmin : ∀ p' s', slotFree tls p' s' → p < p' ∨ (p = p' ∧ s ≤ s')) :
    FindFreeThreadLocalSlot tls = (p, s, false) := by
  induction tls generalizing p with
  | nil => exact absurd hfree (slotFree_nil p s)
  | cons page rest ih =>
    by_cases hall : page.all (fun b => b) = true
    · cases p with
      | zero =>
        exact absurd (slotFree_cons_zero.mp hfree) (page_all_no_free hall s)
      | succ p'' =>
        have hfree' : slotFree rest p'' s := slotFree_cons_succ.mp hfree
        have hmin' : ∀ q s', slotFree rest q s' → p'' < q ∨ (p'' = q ∧ s ≤ s') := by
          intro q s' hq
          rcases hmin (q + 1) s' (slotFree_cons_succ.mpr hq) with h | ⟨he, hs⟩
          · left; omega
          · right; exact ⟨by omega, hs⟩
        simp only [FindFreeThreadLocalSlot]
        rw [if_pos hall, ih p'' hfree' hmin']
    · have hallf : page.all (fun b => b) = false := by
        cases hb : page.all (fun b => b)
        · rfl
        · exact absurd hb hall
      obtain ⟨s0, hs0⟩ := findFirstFreeSlot_of_not_all hallf
      obtain ⟨hfs, hlow⟩ := findFirstFreeSlot_some hs0
      have hps : p = 0 ∧ s = s0 := by
        rcases hmin 0 s0 (slotFree_cons_zero.mpr hfs) with hlt | ⟨he, hle⟩
        · omega
        · subst he
          have hfree0 : page[s]? = some false := slotFree_cons_zero.mp hfree
          rcases Nat.lt_or_ge s s0 with hlt2 | hge
          · have := hlow s hlt2
            rw [hfree0] at this
            simp at this
          · exact ⟨rfl, by omega⟩
      obtain ⟨hp, hs⟩ := hps
      subst hp hs
      simp only [FindFreeThreadLocalSlot]
      rw [if_neg hall, hs0]

/-- MarkNextAvailableTLSSlotAsUsed when the scan found a free slot: that
slot's bit is set and the returned address follows the page/slot formula. -/
theorem markNext_of_found (tls_begin : Nat) (tls : List (List Bool)) {p s : Nat}
    (h : FindFreeThreadLocalSlot tls = (p, s, false)) :
    MarkNextAvailableTLSSlotAsUsed tls_begin tls =
      (tls.set p ((tls.getD p []).set s true),
       tls_begin + p * PAGE_SIZE + s * TLS_ENTRY_SIZE) := by
  simp [MarkNextAvailableTLSSlotAsUsed, h]

/-- MarkNextAvailableTLSSlotAsUsed when every page is full: a fresh all-free
page is appended, its slot 0 is set, and the address points at the new page. -/
theorem markNext_of_full (tls_begin : Nat) (tls : List (List Bool))
    (h : (FindFreeThreadLocalSlot tls).2.2 = true) :
    MarkNextAvailableTLSSlotAsUsed tls_begin tls =
      (tls ++ [(List.replicate 8 false).set 0 true],
       tls_begin + tls.length * PAGE_SIZE) := by
  have hlen : (tls ++ [List.replicate 8 false]).length - 1 = tls.length := by simp
  simp only [MarkNextAvailableTLSSlotAsUsed, h, if_pos trivial, hlen]
  rw [getD_append_length, set_append_length]
  simp

/-- Setting (or clearing) a slot bit keeps every page 8 slots wide. -/
theorem pages8_setSlot (tls : List (List Bool))
    (h8 : ∀ pg ∈ tls, pg.length = 8) (p s : Nat) (v : Bool) :
    ∀ pg ∈ tls.set p ((tls.getD p []).set s v), pg.length = 8 := by
  intro pg hpg
  by_cases hp : p < tls.length
  · rcases List.mem_or_eq_of_mem_set hpg with hmem | rfl
    · exact h8 pg hmem
    · rw [List.length_set, List.getD_eq_getElem?_getD,
        List.getElem?_eq_getElem hp]
      exact h8 _ (List.getElem_mem hp)
  · rw [List.set_eq_of_length_le (by omega)] at hpg
    exact h8 pg hpg

/-- stop_threads aborts (fatal assertion) whenever the list holds a thread of
this process, other than the caller, that is not in a blocking-wait state. -/
theorem stopThreadList_none {pid current_tid : Nat} {l : List SysThread}
    (t : SysThread) (ht : t ∈ l) (howner : t.owner = pid)
    (htid : t.tid ≠ current_tid)
    (h1 : t.status ≠ ThreadStatus.WaitSynchAny)
    (h2 : t.status ≠ ThreadStatus.WaitSynchAll) :
    stopThreadList pid current_tid l = none := by
  induction l with
  | nil => cases ht
  | cons a rest ih =>
    rcases List.mem_cons.mp ht with rfl | hmem
    · simp only [stopThreadList]
      rw [if_neg (fun hn => hn howner), if_neg htid,
        if_neg (by rintro (hc | hc) <;> [exact h1 hc; exact h2 hc])]
    · have hr := ih hmem
      simp only [stopThreadList, hr, Option.map_none']
      split
      · rfl
      split
      · rfl
      split
      · rfl
      · rfl

/-- stop_threads on a list whose qualifying threads are all blocking-waiting
succeeds, stopping exactly the qualifying threads. -/
theorem stopThreadList_all_wait {pid current_tid : Nat} {l : List SysThread}
    (hall : ∀ t ∈ l, t.owner = pid → t.tid ≠ current_tid →
      t.status = ThreadStatus.WaitSynchAny ∨ t.status = ThreadStatus.WaitSynchAll) :
    stopThreadList pid current_tid l =
      some (stopOwnedThreads pid current_tid l) := by
  induction l with
  | nil => rfl
  | cons a rest ih =>
    have hr := ih fun t ht => hall t (List.mem_cons_of_mem a ht)
    by_cases hown : a.owner = pid
    · by_cases htid : a.tid = current_tid
      · simp [stopThreadList, stopOwnedThreads, hown, htid, hr]
      · rcases hall a (List.mem_cons_self ..) hown htid with hw | hw <;>
          simp [stopThreadList, stopOwnedThreads, hown, htid, hw, hr]
    · simp [stopThreadList, stopOwnedThreads, hown, hr]

/-! ## Claim theorems -/

/-- Claim C2: a descriptor classified as an allowed-syscalls mask (type AND
0xF80 = 0xF00) updates svc_access_mask through the bit-copy loop at base
index g * 24 (g the descriptor's bits 24..26) over the low 24 bits; the loop
writes bit k of the field to index base + k for exactly the first svcSteps
positions, stops at the first point where the remaining bits are zero or the
index leaves the mask, leaves every other index unchanged, and the mask
starts all-true at process creation. -/
theorem svc_mask_descriptor_claim (st : CapState) (descriptor index bits : Nat)
    (h : (descriptor >>> 20) &&& 0xF80 = 0xF00)
    (hindex : index = ((descriptor >>> 24) &&& 7) * 24)
    (hbits : bits = descriptor &&& 0xFFFFFF) :
    (∀ rest, parseKernelCaps st (descriptor :: rest) =
      parseKernelCaps
        { st with svc_access_mask := setSvcBits st.svc_access_mask index bits }
        rest) ∧
    (∀ j, (setSvcBits st.svc_access_mask index bits)[j]? =
      if index ≤ j ∧ j < index + svcSteps st.svc_access_mask.length index bits then
        some (bits.testBit (j - index))
      else st.svc_access_mask[j]?) ∧
    (bits >>> svcSteps st.svc_access_mask.length index bits = 0 ∨
      st.svc_access_mask.length ≤
        index + svcSteps st.svc_access_mask.length index bits) ∧
    (∀ k < svcSteps st.svc_access_mask.length index bits,
      bits >>> k ≠ 0 ∧ index + k < st.svc_access_mask.length) ∧
    (∀ j < 0x80, initialSvcMask[j]? = some true) := by
  subst hindex hbits
  have hsent : descriptor ≠ 0xFFFFFFFF := by
    intro he
    rw [he] at h
    exact absurd h (by decide)
  have hnotE : (descriptor >>> 20) &&& 0xF00 ≠ 0xE00 := by
    rw [and_mask_mono (descriptor >>> 20) 0xF80 0xF00 0xF00 h (by decide)]
    decide
  refine ⟨?_, fun j => setSvcBits_getElem? .., svcSteps_last .., fun k hk => svcSteps_min _ _ _ _ hk, ?_⟩
  · intro rest
    cases rest with
    | nil =>
      rw [parseKernelCaps.eq_2, if_neg hsent, if_neg hnotE, if_pos h, parseKernelCaps.eq_1]
    | cons e r =>
      rw [parseKernelCaps.eq_3, if_neg hsent, if_neg hnotE, if_pos h]
  · intro j hj
    rw [initialSvcMask, List.getElem?_replicate, if_pos hj]

/-- Witness for svc_mask_descriptor_claim: parsing the concrete descriptor
0xF0000007 (group 0, field 7) routes through the syscall-mask update. -/
theorem svc_mask_descriptor_claim_witness :
    parseKernelCaps createdCapState [0xF0000007] =
      parseKernelCaps
        { createdCapState with svc_access_mask := setSvcBits initialSvcMask 0 7 }
        [] :=
  (svc_mask_descriptor_claim createdCapState 0xF0000007 0 7 (by decide) (by decide)
    (by decide)).1 []

/-- Claim C3: a mapped-memory-range descriptor (type AND 0xFFE = 0xFF8) with
a partner of the same classification appends exactly one mapping built from
the pair (32-bit shifted addresses, clamped size, the two bit-20 flags) and
consumes the partner; with a missing or differently-classified next word it
appends nothing, logs one warning, and does not advance past the pair. -/
theorem mem_range_descriptor_claim (st : CapState) (descriptor : Nat)
    (h : (descriptor >>> 20) &&& 0xFFE = 0xFF8) :
    (parseKernelCaps st [descriptor] = { st with warnings := st.warnings + 1 }) ∧
    (∀ end_desc rest, (end_desc >>> 20) &&& 0xFFE ≠ 0xFF8 →
      parseKernelCaps st (descriptor :: end_desc :: rest) =
        parseKernelCaps { st with warnings := st.warnings + 1 } (end_desc :: rest)) ∧
    (∀ end_desc rest, (end_desc >>> 20) &&& 0xFFE = 0xFF8 →
      parseKernelCaps st (descriptor :: end_desc :: rest) =
        parseKernelCaps
          { st with address_mappings := st.address_mappings ++
              [{ address := (descriptor <<< 12) % 2 ^ 32,
                 size :=
                   if (descriptor <<< 12) % 2 ^ 32 < (end_desc <<< 12) % 2 ^ 32 then
                     (end_desc <<< 12) % 2 ^ 32 - (descriptor <<< 12) % 2 ^ 32
                   else 0,
                 read_only := descriptor.testBit 20,
                 unk_flag := end_desc.testBit 20 }] } rest) := by
  have hsent : descriptor ≠ 0xFFFFFFFF := by
    intro he
    rw [he] at h
    exact absurd h (by decide)
  have hnotE : (descriptor >>> 20) &&& 0xF00 ≠ 0xE00 := by
    rw [and_mask_mono (descriptor >>> 20) 0xFFE 0xFF8 0xF00 h (by decide)]
    decide
  have hnotSvc : (descriptor >>> 20) &&& 0xF80 ≠ 0xF00 := by
    rw [and_mask_mono (descriptor >>> 20) 0xFFE 0xFF8 0xF80 h (by decide)]
    decide
  have hnotHt : (descriptor >>> 20) &&& 0xFF0 ≠ 0xFE0 := by
    rw [and_mask_mono (descriptor >>> 20) 0xFFE 0xFF8 0xFF0 h (by decide)]
    decide
  have hnotFlags : (descriptor >>> 20) &&& 0xFF8 ≠ 0xFF0 := by
    rw [and_mask_mono (descriptor >>> 20) 0xFFE 0xFF8 0xFF8 h (by decide)]
    decide
  refine ⟨?_, ?_, ?_⟩
  · rw [parseKernelCaps.eq_2, if_neg hsent, if_neg hnotE, if_neg hnotSvc, if_neg hnotHt,
      if_neg hnotFlags, if_pos h, parseKernelCaps.eq_1]
  · intro end_desc rest hmis
    rw [parseKernelCaps.eq_3, if_neg hsent, if_neg hnotE, if_neg hnotSvc, if_neg hnotHt,
      if_neg hnotFlags, if_pos h, if_pos hmis]
  · intro end_desc rest hmatch
    rw [parseKernelCaps.eq_3, if_neg hsent, if_neg hnotE, if_neg hnotSvc, if_neg hnotHt,
      if_neg hnotFlags, if_pos h, if_neg (by exact fun hn => hn hmatch)]

/-- Witness for mem_range_descriptor_claim at concrete descriptors: a lone
range word only logs a warning; a well-formed pair appends one mapping with
address 0x1000 and size 0x1000. -/
theorem mem_range_descriptor_claim_witness :
    (parseKernelCaps createdCapState [0xFF800001] =
      { createdCapState with warnings := createdCapState.warnings + 1 }) ∧
    (parseKernelCaps createdCapState [0xFF800001, 0xFF800002] =
      parseKernelCaps
        { createdCapState with address_mappings := createdCapState.address_mappings ++
            [{ address := (0xFF800001 <<< 12) % 2 ^ 32,
               size :=
                 if (0xFF800001 <<< 12) % 2 ^ 32 < (0xFF800002 <<< 12) % 2 ^ 32 then
                   (0xFF800002 <<< 12) % 2 ^ 32 - (0xFF800001 <<< 12) % 2 ^ 32
                 else 0,
               read_only := Nat.testBit 0xFF800001 20,
               unk_flag := Nat.testBit 0xFF800002 20 }] } []) :=
  ⟨(mem_range_descriptor_claim createdCapState 0xFF800001 (by decide)).1,
   (mem_range_descriptor_claim createdCapState 0xFF800001 (by decide)).2.2
     0xFF800002 [] (by decide)⟩

/-- Claim C10: Process::UnmapMemory ignores src_addr — two calls differing
only in src_addr make the same UnmapRange request on (dst_addr, size) and
return the same result. -/
theorem unmapMemory_src_independent (vm : VMManager) (dst_addr size src1 src2 : Nat) :
    UnmapMemory vm dst_addr src1 size = UnmapMemory vm dst_addr src2 size ∧
    UnmapMemory vm dst_addr src1 size = vm.unmapRange dst_addr size :=
  ⟨rfl, rfl⟩

/-- Claim C5: ClearSignalState fails with InvalidState exactly when status is
Exited or the process is not signaled, leaving the state untouched; otherwise
it succeeds and changes nothing but clearing is_signaled. -/
theorem clearSignalState_claim (st : LifecycleState) :
    (ClearSignalState st =
      if st.status = ProcessStatus.Exited ∨ st.is_signaled = false then
        (ResultCode.invalidState, st)
      else
        (ResultCode.success, { st with is_signaled := false })) ∧
    ((ClearSignalState st).1 = ResultCode.invalidState ↔
      (st.status = ProcessStatus.Exited ∨ st.is_signaled = false)) := by
  obtain ⟨s, sig, w⟩ := st
  cases s <;> cases sig <;> simp [ClearSignalState]

/-- Claim C6: a status transition request to the current status changes
nothing and wakes nobody; a request to a different status updates the status,
sets is_signaled, and wakes every thread currently waiting on the process
exactly once (the woken list counts each current waiter exactly as often as
it waits, and the waiter list is emptied, so no second wake can occur for the
same change). -/
theorem changeStatus_claim (st : LifecycleState) (new_status : ProcessStatus) :
    (st.status = new_status → ChangeStatus st new_status = (st, [])) ∧
    (st.status ≠ new_status →
      ChangeStatus st new_status =
        ({ status := new_status, is_signaled := true, waiting_threads := [] },
         st.waiting_threads) ∧
      ∀ t : Nat, (ChangeStatus st new_status).2.count t = st.waiting_threads.count t) := by
  by_cases h : st.status = new_status <;>
    simp [ChangeStatus, WakeupAllWaitingThreads, h]

/-- Witness for changeStatus_claim at concrete states: a same-status request
is a no-op, and a Created-to-Running request signals and wakes waiters 5 and
7 exactly once. -/
theorem changeStatus_claim_witness :
    ChangeStatus ⟨ProcessStatus.Created, false, [5, 7]⟩ ProcessStatus.Created =
      (⟨ProcessStatus.Created, false, [5, 7]⟩, []) ∧
    ChangeStatus ⟨ProcessStatus.Created, false, [5, 7]⟩ ProcessStatus.Running =
      (⟨ProcessStatus.Running, true, []⟩, [5, 7]) :=
  ⟨(changeStatus_claim _ _).1 rfl, ((changeStatus_claim _ _).2 (by decide)).1⟩

/-- Claim C1, counterexample: on a concrete codeset the code segment is
reprotected ReadExecute, not the execute-only permission the claim states
(rodata and data match the claim). -/
theorem loadModule_exec_only_cex :
    reprotectPerms
        (LoadModule
          { code := { addr := 0, offset := 0, size := 0x1000 },
            rodata := { addr := 0x1000, offset := 0x1000, size := 0x1000 },
            data := { addr := 0x2000, offset := 0x2000, size := 0x1000 } } 0) =
      [VMAPermission.ReadExecute, VMAPermission.Read, VMAPermission.ReadWrite] ∧
    [VMAPermission.ReadExecute, VMAPermission.Read, VMAPermission.ReadWrite] ≠
      [VMAPermission.Execute, VMAPermission.Read, VMAPermission.ReadWrite] := by
  decide

/-- Claim C1, amended: LoadModule maps the three segments in order at
segment.addr + base_addr (code as static code, rodata and data as mutable
code), reprotects code to read-execute (not execute-only), rodata to
read-only and data to read-write, and after all segments are mapped issues
exactly one instruction-cache invalidation per core, four in total. -/
theorem loadModule_claim (module_ : CodeSet) (base_addr : Nat) :
    LoadModule module_ base_addr =
      [LoadModuleEvent.mapMemoryBlock (module_.code.addr + base_addr)
          module_.code.offset module_.code.size MemoryState.CodeStatic,
       LoadModuleEvent.reprotect (module_.code.addr + base_addr)
          VMAPermission.ReadExecute,
       LoadModuleEvent.mapMemoryBlock (module_.rodata.addr + base_addr)
          module_.rodata.offset module_.rodata.size MemoryState.CodeMutable,
       LoadModuleEvent.reprotect (module_.rodata.addr + base_addr)
          VMAPermission.Read,
       LoadModuleEvent.mapMemoryBlock (module_.data.addr + base_addr)
          module_.data.offset module_.data.size MemoryState.CodeMutable,
       LoadModuleEvent.reprotect (module_.data.addr + base_addr)
          VMAPermission.ReadWrite,
       LoadModuleEvent.clearInstructionCache 0,
       LoadModuleEvent.clearInstructionCache 1,
       LoadModuleEvent.clearInstructionCache 2,
       LoadModuleEvent.clearInstructionCache 3] ∧
    icacheCores (LoadModule module_ base_addr) = [0, 1, 2, 3] ∧
    reprotectPerms (LoadModule module_ base_addr) =
      [VMAPermission.ReadExecute, VMAPermission.Read, VMAPermission.ReadWrite] := by
  refine ⟨rfl, ?_, ?_⟩ <;> simp [LoadModule, MapSegment, icacheCores, reprotectPerms]

/-- Claim C4, counterexample: the call sequence prepare_for_termination then
run moves the status from Exited back to Running — a backward transition, so
status is not monotone over every sequence of public operations. -/
theorem status_monotonic_cex :
    applyOps 1 0 createdLifecycle emptySys [ProcessOp.prepareForTermination] =
      some ({ status := ProcessStatus.Exited, is_signaled := true,
              waiting_threads := [] }, emptySys) ∧
    applyOps 1 0 createdLifecycle emptySys
        [ProcessOp.prepareForTermination, ProcessOp.run] =
      some ({ status := ProcessStatus.Running, is_signaled := true,
              waiting_threads := [] }, emptySys) ∧
    statusRank ProcessStatus.Running < statusRank ProcessStatus.Exited := by
  decide

/-- Claim C4, amended: every public operation except run is forward-only —
whenever it completes, the status rank never decreases — while run
unconditionally requests the Running status (a backward transition exactly
when it is invoked after prepare_for_termination). -/
theorem status_monotonic_amended (pid current_tid : Nat) (st : LifecycleState)
    (sys : TermSystem) (op : ProcessOp) (hop : op ≠ ProcessOp.run) :
    (∀ st' sys', applyOp pid current_tid op st sys = some (st', sys') →
      statusRank st.status ≤ statusRank st'.status) ∧
    applyOp pid current_tid ProcessOp.run st sys =
      some ((ChangeStatus st ProcessStatus.Running).1, sys) := by
  refine ⟨?_, rfl⟩
  intro st' sys' h
  cases op with
  | run => exact absurd rfl hop
  | prepareForTermination =>
    rw [prepareForTermination_lifecycle h]
    cases st.status <;> simp [statusRank]
  | clearSignalState =>
    simp only [applyOp, Option.some.injEq, Prod.mk.injEq] at h
    rw [← h.1, clearSignalState_status]

/-- Witness for status_monotonic_amended: prepare_for_termination on a
freshly created process moves the rank forward from Created to Exited. -/
theorem status_monotonic_amended_witness :
    statusRank createdLifecycle.status ≤ statusRank ProcessStatus.Exited :=
  (status_monotonic_amended 1 0 createdLifecycle emptySys
      ProcessOp.prepareForTermination (by decide)).1
    { status := ProcessStatus.Exited, is_signaled := true, waiting_threads := [] }
    emptySys (by decide)

/-- Claim C9: PrepareForTermination skips threads of other processes and the
calling thread, leaving them untouched; meeting one of this process's other
threads outside the blocking-wait states fires the fatal assertion instead of
continuing; when every such thread is blocking-waiting the assertion never
fires, each qualifying thread on each of the four cores is stopped, and the
status ends at Exited. -/
theorem prepareForTermination_claim (pid current_tid : Nat) (st : LifecycleState)
    (sys : TermSystem) :
    ((∃ t, inSystem sys t ∧ t.owner = pid ∧ t.tid ≠ current_tid ∧
        t.status ≠ ThreadStatus.WaitSynchAny ∧ t.status ≠ ThreadStatus.WaitSynchAll) →
      PrepareForTermination pid current_tid st sys = none) ∧
    ((∀ t, inSystem sys t → t.owner = pid → t.tid ≠ current_tid →
        t.status = ThreadStatus.WaitSynchAny ∨ t.status = ThreadStatus.WaitSynchAll) →
      PrepareForTermination pid current_tid st sys =
        some ({ status := ProcessStatus.Exited, is_signaled := true,
                waiting_threads := [] },
              { core0 := stopOwnedThreads pid current_tid sys.core0,
                core1 := stopOwnedThreads pid current_tid sys.core1,
                core2 := stopOwnedThreads pid current_tid sys.core2,
                core3 := stopOwnedThreads pid current_tid sys.core3 })) ∧
    (∀ t : SysThread, t.owner ≠ pid ∨ t.tid = current_tid →
      (if t.owner = pid ∧ t.tid ≠ current_tid then { t with stopped := true }
       else t) = t) := by
  refine ⟨?_, ?_, ?_⟩
  · rintro ⟨t, hin, howner, htid, h1, h2⟩
    unfold PrepareForTermination
    rcases hin with hin | hin | hin | hin
    · rw [stopThreadList_none t hin howner htid h1 h2]
    · cases hc0 : stopThreadList pid current_tid sys.core0 with
      | none => rfl
      | some c0 => rw [stopThreadList_none t hin howner htid h1 h2]
    · cases hc0 : stopThreadList pid current_tid sys.core0 with
      | none => rfl
      | some c0 =>
        cases hc1 : stopThreadList pid current_tid sys.core1 with
        | none => rfl
        | some c1 => rw [stopThreadList_none t hin howner htid h1 h2]
    · cases hc0 : stopThreadList pid current_tid sys.core0 with
      | none => rfl
      | some c0 =>
        cases hc1 : stopThreadList pid current_tid sys.core1 with
        | none => rfl
        | some c1 =>
          cases hc2 : stopThreadList pid current_tid sys.core2 with
          | none => rfl
          | some c2 =>
            rw [stopThreadList_none t hin howner htid h1 h2]
  · intro hall
    unfold PrepareForTermination
    rw [stopThreadList_all_wait fun t ht => hall t (Or.inl ht),
      stopThreadList_all_wait fun t ht => hall t (Or.inr (Or.inl ht)),
      stopThreadList_all_wait fun t ht => hall t (Or.inr (Or.inr (Or.inl ht))),
      stopThreadList_all_wait fun t ht => hall t (Or.inr (Or.inr (Or.inr ht)))]
    simp [changeStatus_exiting_exited]
  · intro t ht
    rcases ht with ht | ht
    · rw [if_neg fun hc => ht hc.1]
    · rw [if_neg fun hc => hc.2 ht]

/-- Witness for prepareForTermination_claim at concrete systems: a ready
thread of the terminating process aborts the pass; an all-waiting system
terminates with the qualifying thread stopped. -/
theorem prepareForTermination_claim_witness :
    PrepareForTermination 1 0 createdLifecycle
        { core0 := [{ tid := 9, owner := 3, status := ThreadStatus.Running, stopped := false }],
          core1 := [], core2 := [{ tid := 2, owner := 1, status := ThreadStatus.Ready, stopped := false }],
          core3 := [] } = none ∧
    PrepareForTermination 1 0 createdLifecycle
        { core0 := [{ tid := 0, owner := 1, status := ThreadStatus.Running, stopped := false },
                    { tid := 2, owner := 1, status := ThreadStatus.WaitSynchAny, stopped := false }],
          core1 := [], core2 := [], core3 := [] } =
      some ({ status := ProcessStatus.Exited, is_signaled := true, waiting_threads := [] },
            { core0 := stopOwnedThreads 1 0
                [{ tid := 0, owner := 1, status := ThreadStatus.Running, stopped := false },
                 { tid := 2, owner := 1, status := ThreadStatus.WaitSynchAny, stopped := false }],
              core1 := [], core2 := [], core3 := [] }) := by
  constructor
  · exact (prepareForTermination_claim 1 0 createdLifecycle _).1
      ⟨{ tid := 2, owner := 1, status := ThreadStatus.Ready, stopped := false },
        Or.inr (Or.inr (Or.inl (List.mem_cons_self ..))), rfl, by decide, by decide, by decide⟩
  · refine (prepareForTermination_claim 1 0 createdLifecycle _).2.1 ?_
    intro t ht
    rcases ht with ht | ht | ht | ht
    · rcases List.mem_cons.mp ht with rfl | ht2
      · intro _ htid
        exact absurd rfl htid
      · rcases List.mem_cons.mp ht2 with rfl | ht3
        · intro _ _
          exact Or.inl rfl
        · cases ht3
    · cases ht
    · cases ht
    · cases ht

/-- Claim C7: TLS allocation is first-fit.  On a fresh process the first
allocation uses page 0, slot 0 and returns the region base; when every page
is full a new all-free page is appended and its slot 0 used, at address
base + page_count * PAGE_SIZE; in general the lexicographically lowest free
(page, slot) is chosen, its bit set, and the address is
base + page * PAGE_SIZE + slot * TLS_ENTRY_SIZE; in particular a freed slot
that is lowest is the one returned by the next allocation. -/
theorem tls_alloc_claim (tls_begin : Nat) (tls_slots : List (List Bool))
    (h8 : ∀ pg ∈ tls_slots, pg.length = 8) :
    (MarkNextAvailableTLSSlotAsUsed tls_begin [] =
      ([(List.replicate 8 false).set 0 true], tls_begin)) ∧
    ((∀ pg ∈ tls_slots, pg.all (fun b => b) = true) →
      MarkNextAvailableTLSSlotAsUsed tls_begin tls_slots =
        (tls_slots ++ [(List.replicate 8 false).set 0 true],
         tls_begin + tls_slots.length * PAGE_SIZE)) ∧
    (∀ p s, lowestFree tls_slots p s →
      MarkNextAvailableTLSSlotAsUsed tls_begin tls_slots =
        (tls_slots.set p ((tls_slots.getD p []).set s true),
         tls_begin + p * PAGE_SIZE + s * TLS_ENTRY_SIZE)) ∧
    (∀ p s,
      lowestFree
        (FreeTLSSlot tls_begin tls_slots
          (tls_begin + p * PAGE_SIZE + s * TLS_ENTRY_SIZE)) p s →
      (MarkNextAvailableTLSSlotAsUsed tls_begin
        (FreeTLSSlot tls_begin tls_slots
          (tls_begin + p * PAGE_SIZE + s * TLS_ENTRY_SIZE))).2 =
        tls_begin + p * PAGE_SIZE + s * TLS_ENTRY_SIZE) := by
  refine ⟨?_, ?_, ?_, ?_⟩
  · have h := markNext_of_full tls_begin [] rfl
    simpa using h
  · intro hfull
    exact markNext_of_full tls_begin tls_slots (by rw [findFree_of_all_full hfull])
  · intro p s hlf
    have hmin : ∀ p' s', slotFree tls_slots p' s' → p < p' ∨ (p = p' ∧ s ≤ s') := by
      intro p' s' h'
      obtain ⟨hp', hs'⟩ := slotFree_bounds h8 h'
      exact hlf.2 p' hp' s' hs' h'
    exact markNext_of_found tls_begin tls_slots
      (findFree_eq_of_lowest tls_slots p s hlf.1 hmin)
  · intro p s hlf
    have h8' : ∀ pg ∈ FreeTLSSlot tls_begin tls_slots
        (tls_begin + p * PAGE_SIZE + s * TLS_ENTRY_SIZE), pg.length = 8 :=
      pages8_setSlot tls_slots h8 _ _ false
    have hmin : ∀ p' s',
        slotFree (FreeTLSSlot tls_begin tls_slots
          (tls_begin + p * PAGE_SIZE + s * TLS_ENTRY_SIZE)) p' s' →
        p < p' ∨ (p = p' ∧ s ≤ s') := by
      intro p' s' h'
      obtain ⟨hp', hs'⟩ := slotFree_bounds h8' h'
      exact hlf.2 p' hp' s' hs' h'
    rw [markNext_of_found tls_begin _
      (findFree_eq_of_lowest _ p s hlf.1 hmin)]

/-- Witness for tls_alloc_claim: with page 0 full and slot 1 of page 1 free,
allocation picks page 1, slot 1 and returns the matching address. -/
theorem tls_alloc_claim_witness :
    MarkNextAvailableTLSSlotAsUsed 0x10000
        [[true, true, true, true, true, true, true, true],
         [true, false, true, true, true, true, true, true]] =
      ([[true, true, true, true, true, true, true, true],
        [true, false, true, true, true, true, true, true]].set 1
          (([[true, true, true, true, true, true, true, true],
             [true, false, true, true, true, true, true, true]].getD 1 []).set 1 true),
       0x10000 + 1 * PAGE_SIZE + 1 * TLS_ENTRY_SIZE) :=
  (tls_alloc_claim 0x10000
      [[true, true, true, true, true, true, true, true],
       [true, false, true, true, true, true, true, true]]
      (by decide)).2.2.1 1 1 (by decide)

/-- Releasing the address just allocated, when the allocation appended a
fresh page, leaves the appended page in place (all-free) rather than
restoring the exact previous page list. -/
theorem freeTLS_alloc_full (tls_begin : Nat) (tls : List (List Bool))
    (h : (FindFreeThreadLocalSlot tls).2.2 = true) :
    FreeTLSSlot tls_begin (MarkNextAvailableTLSSlotAsUsed tls_begin tls).1
      (MarkNextAvailableTLSSlotAsUsed tls_begin tls).2 =
      tls ++ [List.replicate 8 false] := by
  rw [markNext_of_full tls_begin tls h]
  simp only [FreeTLSSlot]
  have h1 : tls_begin + tls.length * PAGE_SIZE - tls_begin =
      tls.length * PAGE_SIZE := by omega
  have h2 : tls.length * PAGE_SIZE / PAGE_SIZE = tls.length := by
    simp only [PAGE_SIZE]
    omega
  have h3 : tls.length * PAGE_SIZE % PAGE_SIZE / TLS_ENTRY_SIZE = 0 := by
    simp only [PAGE_SIZE, TLS_ENTRY_SIZE]
    omega
  rw [h1, h2, h3, getD_append_length, List.set_set, set_append_length,
    set_getElem?_self (by rfl)]

/-- Releasing the address just allocated, when the allocation found a free
slot, restores the page list exactly. -/
theorem freeTLS_alloc_found (tls_begin : Nat) (tls : List (List Bool)) {p s : Nat}
    (hr : FindFreeThreadLocalSlot tls = (p, s, false))
    (h8 : ∀ pg ∈ tls, pg.length = 8) :
    FreeTLSSlot tls_begin (MarkNextAvailableTLSSlotAsUsed tls_begin tls).1
      (MarkNextAvailableTLSSlotAsUsed tls_begin tls).2 = tls := by
  have hsf := findFree_found hr
  obtain ⟨hplen, hslt⟩ := slotFree_bounds h8 hsf
  have hpg : tls.getD p [] = tls[p] := by
    rw [List.getD_eq_getElem?_getD, List.getElem?_eq_getElem hplen]
    rfl
  have hfree : tls[p][s]? = some false := by
    unfold slotFree at hsf
    rw [List.getElem?_eq_getElem hplen] at hsf
    simpa using hsf
  rw [markNext_of_found tls_begin tls hr]
  simp only [FreeTLSSlot]
  have h1 : tls_begin + p * PAGE_SIZE + s * TLS_ENTRY_SIZE - tls_begin =
      p * PAGE_SIZE + s * TLS_ENTRY_SIZE := by omega
  have h2 : (p * PAGE_SIZE + s * TLS_ENTRY_SIZE) / PAGE_SIZE = p := by
    simp only [PAGE_SIZE, TLS_ENTRY_SIZE]
    omega
  have h3 : (p * PAGE_SIZE + s * TLS_ENTRY_SIZE) % PAGE_SIZE / TLS_ENTRY_SIZE = s := by
    simp only [PAGE_SIZE, TLS_ENTRY_SIZE]
    omega
  rw [h1, h2, h3]
  have hget : (tls.set p ((tls.getD p []).set s true)).getD p [] =
      (tls.getD p []).set s true := by
    rw [List.getD_eq_getElem?_getD, List.getElem?_set_self hplen]
    rfl
  rw [hget, hpg]
  have hinner : (tls[p].set s true).set s false = tls[p] := by
    rw [List.set_set]
    exact set_getElem?_self hfree
  rw [hinner, List.set_set]
  exact set_getElem?_self (List.getElem?_eq_getElem hplen)

/-- Claim C8, counterexample: on a fresh process (no TLS pages) the claim's
restoration fails — allocate then free leaves one all-free page, not the
empty page list the process had before the allocation. -/
theorem tls_free_restore_cex :
    FreeTLSSlot 0 (MarkNextAvailableTLSSlotAsUsed 0 []).1
        (MarkNextAvailableTLSSlotAsUsed 0 []).2 = [List.replicate 8 false] ∧
    [List.replicate 8 false] ≠ ([] : List (List Bool)) := by
  decide

/-- Claim C8, amended: freeing the address just returned by allocation
recomputes by the inverse arithmetic exactly the (page, slot) pair the
allocation chose and clears exactly that bit; every page that existed before
the allocation gets its bitmap restored and no page is removed, while a page
the allocation appended persists, all-free. -/
theorem tls_free_alloc_claim (tls_begin : Nat) (tls_slots : List (List Bool))
    (h8 : ∀ pg ∈ tls_slots, pg.length = 8) :
    (((MarkNextAvailableTLSSlotAsUsed tls_begin tls_slots).2 - tls_begin) / PAGE_SIZE =
      (if (FindFreeThreadLocalSlot tls_slots).2.2 then tls_slots.length
       else (FindFreeThreadLocalSlot tls_slots).1)) ∧
    ((((MarkNextAvailableTLSSlotAsUsed tls_begin tls_slots).2 - tls_begin) % PAGE_SIZE) /
        TLS_ENTRY_SIZE =
      (if (FindFreeThreadLocalSlot tls_slots).2.2 then 0
       else (FindFreeThreadLocalSlot tls_slots).2.1)) ∧
    (FreeTLSSlot tls_begin (MarkNextAvailableTLSSlotAsUsed tls_begin tls_slots).1
        (MarkNextAvailableTLSSlotAsUsed tls_begin tls_slots).2 =
      if (FindFreeThreadLocalSlot tls_slots).2.2 then
        tls_slots ++ [List.replicate 8 false]
      else tls_slots) ∧
    (tls_slots.length ≤
      (FreeTLSSlot tls_begin (MarkNextAvailableTLSSlotAsUsed tls_begin tls_slots).1
        (MarkNextAvailableTLSSlotAsUsed tls_begin tls_slots).2).length) := by
  rcases hb : FindFreeThreadLocalSlot tls_slots with ⟨p, s, bb⟩
  cases bb with
  | true =>
    have hm := markNext_of_full tls_begin tls_slots (by rw [hb])
    have hf := freeTLS_alloc_full tls_begin tls_slots (by rw [hb])
    refine ⟨?_, ?_, ?_, ?_⟩
    · rw [hm]
      show (tls_begin + tls_slots.length * PAGE_SIZE - tls_begin) / PAGE_SIZE =
        tls_slots.length
      simp only [PAGE_SIZE]
      omega
    · rw [hm]
      show (tls_begin + tls_slots.length * PAGE_SIZE - tls_begin) % PAGE_SIZE /
          TLS_ENTRY_SIZE = 0
      simp only [PAGE_SIZE, TLS_ENTRY_SIZE]
      omega
    · exact hf
    · rw [hf]
      simp
  | false =>
    have hm := markNext_of_found tls_begin tls_slots hb
    have hf := freeTLS_alloc_found tls_begin tls_slots hb h8
    obtain ⟨hplen, hslt⟩ := slotFree_bounds h8 (findFree_found hb)
    refine ⟨?_, ?_, ?_, ?_⟩
    · rw [hm]
      show (tls_begin + p * PAGE_SIZE + s * TLS_ENTRY_SIZE - tls_begin) / PAGE_SIZE = p
      simp only [PAGE_SIZE, TLS_ENTRY_SIZE]
      omega
    · rw [hm]
      show (tls_begin + p * PAGE_SIZE + s * TLS_ENTRY_SIZE - tls_begin) % PAGE_SIZE /
          TLS_ENTRY_SIZE = s
      simp only [PAGE_SIZE, TLS_ENTRY_SIZE]
      omega
    · exact hf
    · rw [hf]

/-- Witness for tls_free_alloc_claim: freeing the freshly allocated slot of a
one-page table with slot 1 free restores that table exactly. -/
theorem tls_free_alloc_claim_witness :
    FreeTLSSlot 0x20000
        (MarkNextAvailableTLSSlotAsUsed 0x20000
          [[true, false, true, true, true, true, true, true]]).1
        (MarkNextAvailableTLSSlotAsUsed 0x20000
          [[true, false, true, true, true, true, true, true]]).2 =
      (if (FindFreeThreadLocalSlot
            [[true, false, true, true, true, true, true, true]]).2.2 then
        [[true, false, true, true, true, true, true, true]] ++
          [List.replicate 8 false]
      else [[true, false, true, true, true, true, true, true]]) :=
  (tls_free_alloc_claim 0x20000
      [[true, false, true, true, true, true, true, true]] (by decide)).2.2.1

end Kernel
